import Mathlib

/-!
Verification of the Rit version-control core (`Rit.mjs`).

The repository state is the on-disk `.rit` layout: the `objects/` directory
(a content-addressed map from hex hash to raw file bytes), the `HEAD` file
(raw text, absent only if never created), and the `index` file (a JSON list
of `{ path, hash }` entries; we carry the parsed list, since every write is
`JSON.stringify` of a list and every read is `JSON.parse` of such a write —
the round-trip is proved below as `parseCommit_serializeCommit` machinery).

The SHA1 digest is host functionality (`crypto.createHash("sha1")`), so it
is carried as an abstract parameter `sha1 : String → String`; claims that
need collision-freeness assume `Function.Injective sha1` explicitly.
-/

namespace Rit

/-- The staging-index entry pushed by `updateStagingArea`:
`index.push({ path: filePath, hash: fileHash })`. -/
structure IndexEntry where
  path : String
  hash : String
deriving DecidableEq

/-- The commit record built by `commit`:
`{ timeStamp, message, files, parent }`.  `parent` is the value returned by
`getCurrentHead`: `none` models JS `null` (HEAD file unreadable) and
`some ""` models the empty HEAD of a freshly initialized repository. -/
structure Commit where
  timeStamp : String
  message : String
  files : List IndexEntry
  parent : Option String
deriving DecidableEq

/-- The persistent repository state: the `objects/` directory (newest write
first; `fs.writeFile` on an existing key overwrites, which the
head-of-list lookup below reflects), the `HEAD` file content (`none` when
the file is missing, so reading it throws), and the parsed `index` file. -/
structure RepoState where
  objects : List (String × String)
  headFile : Option String
  index : List IndexEntry
deriving DecidableEq

/-- Reading `objects/<h>`: the most recent write under key `h`, `none` when
no object with that key exists (so `fs.readFile` would throw ENOENT). -/
def storeGet : List (String × String) → String → Option String
  | [], _ => none
  | (k, v) :: rest, h => if k = h then some v else storeGet rest h

/-- Writing `objects/<h>`: whole-file overwrite of the object under `h`. -/
def storePut (objects : List (String × String)) (h content : String) :
    List (String × String) :=
  (h, content) :: objects

/-- `init`: creates `objects/`, writes `HEAD` as the empty string and
`index` as `[]` (flag `wx`, so only in a fresh repository). -/
def initState : RepoState :=
  { objects := [], headFile := some "", index := [] }

/-- `hashObject(content)`: SHA1 hex digest of the content, abstracted over
the host digest function. -/
def hashObject (sha1 : String → String) (content : String) : String :=
  sha1 content

/-- `getCurrentHead()`: reads the `HEAD` file; the `catch` branch returns
`null` (here `none`) when the file cannot be read. -/
def getCurrentHead (s : RepoState) : Option String :=
  s.headFile

/-- `updateStagingArea(filePath, fileHash)`: parses the `index` file,
`index.push({ path, hash })`, and writes the whole list back. -/
def updateStagingArea (s : RepoState) (filePath fileHash : String) :
    RepoState :=
  { s with index := s.index ++ [{ path := filePath, hash := fileHash }] }

/-- `add(fileToBeAdded)`: reads the working file (its content is the
`fileContent` argument), hashes it, writes the blob into `objects/` under
the hash, and appends a staging entry for it. -/
def add (sha1 : String → String) (s : RepoState)
    (filePath fileContent : String) : RepoState :=
  let fileHash := hashObject sha1 fileContent
  updateStagingArea
    { s with objects := storePut s.objects fileHash fileContent }
    filePath fileHash

/-- `getFileContent(fileHash)`: reads `objects/<fileHash>`; `none` when the
read throws because the object is absent. -/
def getFileContent (objects : List (String × String)) (fileHash : String) :
    Option String :=
  storeGet objects fileHash

/-! ## Commit serialization

Modelled from the spec: the host builtin `JSON.stringify` is not repository
code; the spec describes it as "a deterministic text encoding of
`{timeStamp, message, files: [{path, hash}], parent}`" with stable field
order.  The encoding below is the JSON text `JSON.stringify` produces for
these records: object keys in insertion order, strings quoted with the
standard JSON escapes, `null` for a `null` parent. -/

/-- Lowercase hex digit for a value below 16, as used in `\u00XX` escapes. -/
def hexDig (n : Nat) : Char :=
  if n < 10 then Char.ofNat (48 + n) else Char.ofNat (87 + n)

/-- Modelled from the spec: the JSON escape of one character inside a quoted
string — `\"`, `\\`, the named control escapes, `\u00XX` for the remaining
control characters, and every other character verbatim. -/
def escChar (c : Char) : List Char :=
  if c = '"' then ['\\', '"']
  else if c = '\\' then ['\\', '\\']
  else if c = Char.ofNat 8 then ['\\', 'b']
  else if c = Char.ofNat 9 then ['\\', 't']
  else if c = Char.ofNat 10 then ['\\', 'n']
  else if c = Char.ofNat 12 then ['\\', 'f']
  else if c = Char.ofNat 13 then ['\\', 'r']
  else if c.toNat < 32 then
    ['\\', 'u', '0', '0', hexDig (c.toNat / 16), hexDig (c.toNat % 16)]
  else [c]

/-- JSON escape of a whole string body. -/
def escStr (s : List Char) : List Char :=
  (s.map escChar).flatten

/-- A JSON quoted string: `"` body `"`. -/
def quoted (s : List Char) : List Char :=
  '"' :: escStr s ++ ['"']

/-- The literal text `{"path":` opening an index-entry object. -/
def pathKey : List Char :=
  '\x7b' :: "\"path\":".data

/-- The literal text `,"hash":` before an index entry's hash field. -/
def hashKey : List Char :=
  ",\"hash\":".data

/-- JSON text of one index entry: `{"path":"…","hash":"…"}`. -/
def serEntry (e : IndexEntry) : List Char :=
  pathKey ++ quoted e.path.data ++ hashKey ++ quoted e.hash.data ++ ['\x7d']

/-- JSON text of a comma-separated nonempty run of index entries. -/
def serEntries : List IndexEntry → List Char
  | [] => []
  | [e] => serEntry e
  | e :: es => serEntry e ++ ',' :: serEntries es

/-- JSON text of the `files` array: `[…]`. -/
def serFiles (es : List IndexEntry) : List Char :=
  '[' :: serEntries es ++ [']']

/-- JSON text of the `parent` field: `null` or a quoted hash string. -/
def serParent : Option String → List Char
  | none => "null".data
  | some s => quoted s.data

/-- The literal text `{"timeStamp":` opening a commit object. -/
def tsKey : List Char :=
  "\x7b\"timeStamp\":".data

/-- The literal text `,"message":`. -/
def msgKey : List Char :=
  ",\"message\":".data

/-- The literal text `,"files":`. -/
def filesKey : List Char :=
  ",\"files\":".data

/-- The literal text `,"parent":`. -/
def parentKey : List Char :=
  ",\"parent\":".data

/-- JSON text of a commit record, fields in insertion order
`timeStamp, message, files, parent`. -/
def serCommitChars (c : Commit) : List Char :=
  tsKey ++ quoted c.timeStamp.data ++
  msgKey ++ quoted c.message.data ++
  filesKey ++ serFiles c.files ++
  parentKey ++ serParent c.parent ++ ['\x7d']

/-- `JSON.stringify(commitData)` as a `String`. -/
def serializeCommit (c : Commit) : String :=
  String.mk (serCommitChars c)

/-- `commit(message)`: reads the index, takes the current head as parent,
builds the commit record (the timestamp `new Date().toISOString()` is the
`timeStamp` argument), hashes its serialization, writes the serialized
record into `objects/` under that hash, points `HEAD` at it, and clears the
index.  Returns the new state and the commit hash. -/
def mkCommit (s : RepoState) (message timeStamp : String) : Commit :=
  { timeStamp := timeStamp
    message := message
    files := s.index
    parent := getCurrentHead s }

/-- The state transition and result hash of `commit(message)`. -/
def commit (sha1 : String → String) (s : RepoState)
    (message timeStamp : String) : RepoState × String :=
  let commitData := mkCommit s message timeStamp
  let commitHash := hashObject sha1 (serializeCommit commitData)
  ({ objects := storePut s.objects commitHash (serializeCommit commitData)
     headFile := some commitHash
     index := [] },
   commitHash)

/-! ## Commit parsing

Modelled from the spec: `JSON.parse` is a host builtin; `log` and
`showCommitDiff` apply it to bytes previously produced by the serializer
above, and the spec classifies a failed parse as a corrupt object.  The
parser below is a left inverse of the serializer (proved later), which is
exactly the behavioural content of `JSON.parse ∘ JSON.stringify = id` on
these records; any other input may return `none`. -/

/-- Value of a lowercase hex digit. -/
def hexVal (c : Char) : Option Nat :=
  if 48 ≤ c.toNat ∧ c.toNat ≤ 57 then some (c.toNat - 48)
  else if 97 ≤ c.toNat ∧ c.toNat ≤ 102 then some (c.toNat - 87)
  else none

/-- Parses the body of a JSON quoted string (after the opening quote),
undoing `escChar`; returns the decoded characters and the rest of the
input after the closing quote. -/
def parseStrBody : List Char → Option (List Char × List Char)
  | [] => none
  | c :: r =>
    if c = '"' then some ([], r)
    else if c = '\\' then
      match r with
      | [] => none
      | e :: r2 =>
        if e = '"' then (parseStrBody r2).map (fun p => ('"' :: p.1, p.2))
        else if e = '\\' then
          (parseStrBody r2).map (fun p => ('\\' :: p.1, p.2))
        else if e = 'b' then
          (parseStrBody r2).map (fun p => (Char.ofNat 8 :: p.1, p.2))
        else if e = 't' then
          (parseStrBody r2).map (fun p => (Char.ofNat 9 :: p.1, p.2))
        else if e = 'n' then
          (parseStrBody r2).map (fun p => (Char.ofNat 10 :: p.1, p.2))
        else if e = 'f' then
          (parseStrBody r2).map (fun p => (Char.ofNat 12 :: p.1, p.2))
        else if e = 'r' then
          (parseStrBody r2).map (fun p => (Char.ofNat 13 :: p.1, p.2))
        else if e = 'u' then
          match r2 with
          | d1 :: d2 :: d3 :: d4 :: r3 =>
            match hexVal d1, hexVal d2, hexVal d3, hexVal d4 with
            | some a, some b, some c3, some d =>
              (parseStrBody r3).map
                (fun p =>
                  (Char.ofNat (4096 * a + 256 * b + 16 * c3 + d) :: p.1,
                   p.2))
            | _, _, _, _ => none
          | _ => none
        else none
    else (parseStrBody r).map (fun p => (c :: p.1, p.2))

/-- Parses a full JSON quoted string, opening quote included. -/
def parseJString (l : List Char) : Option (List Char × List Char) :=
  match l with
  | c :: r => if c = '"' then parseStrBody r else none
  | [] => none

/-- Consumes an expected literal text from the front of the input. -/
def parseLit : List Char → List Char → Option (List Char)
  | [], r => some r
  | _ :: _, [] => none
  | e :: es, c :: r => if c = e then parseLit es r else none

/-- Parses one `{"path":"…","hash":"…"}` entry object. -/
def parseEntry (l : List Char) : Option (IndexEntry × List Char) :=
  match parseLit pathKey l with
  | none => none
  | some l1 =>
    match parseJString l1 with
    | none => none
    | some (p, l2) =>
      match parseLit hashKey l2 with
      | none => none
      | some l3 =>
        match parseJString l3 with
        | none => none
        | some (h, l4) =>
          match l4 with
          | c :: l5 =>
            if c = '\x7d' then
              some ({ path := String.mk p, hash := String.mk h }, l5)
            else none
          | [] => none

/-- Parses a nonempty comma-separated run of entries up to the closing
bracket; the fuel bounds the number of entries. -/
def parseEntriesAux : Nat → List Char → Option (List IndexEntry × List Char)
  | 0, _ => none
  | fuel + 1, l =>
    match parseEntry l with
    | none => none
    | some (e, l2) =>
      match l2 with
      | [] => none
      | c :: l3 =>
        if c = ',' then
          (parseEntriesAux fuel l3).map (fun p => (e :: p.1, p.2))
        else if c = ']' then some ([e], l3)
        else none

/-- Parses the `files` array. -/
def parseFiles (l : List Char) : Option (List IndexEntry × List Char) :=
  match l with
  | c :: r =>
    if c = '[' then
      match r with
      | c2 :: r2 =>
        if c2 = ']' then some ([], r2) else parseEntriesAux r.length r
      | [] => none
    else none
  | [] => none

/-- Parses the `parent` field: `null` or a quoted string. -/
def parseParent (l : List Char) : Option (Option String × List Char) :=
  match l with
  | c :: r =>
    if c = '"' then
      (parseStrBody r).map (fun p => (some (String.mk p.1), p.2))
    else if c = 'n' then
      match r with
      | u :: l1 :: l2 :: r2 =>
        if u = 'u' ∧ l1 = 'l' ∧ l2 = 'l' then some (none, r2) else none
      | _ => none
    else none
  | [] => none

/-- Parses a serialized commit record, returning it and the rest of the
input. -/
def parseCommitChars (l : List Char) : Option (Commit × List Char) :=
  match parseLit tsKey l with
  | none => none
  | some l1 =>
    match parseJString l1 with
    | none => none
    | some (ts, l2) =>
      match parseLit msgKey l2 with
      | none => none
      | some l3 =>
        match parseJString l3 with
        | none => none
        | some (msg, l4) =>
          match parseLit filesKey l4 with
          | none => none
          | some l5 =>
            match parseFiles l5 with
            | none => none
            | some (fs, l6) =>
              match parseLit parentKey l6 with
              | none => none
              | some l7 =>
                match parseParent l7 with
                | none => none
                | some (par, l8) =>
                  match l8 with
                  | c :: l9 =>
                    if c = '\x7d' then
                      some
                        ({ timeStamp := String.mk ts
                           message := String.mk msg
                           files := fs
                           parent := par }, l9)
                    else none
                  | [] => none

/-- `JSON.parse` of a stored object, specialized to commit records:
succeeds exactly on a full serialized commit. -/
def parseCommit (s : String) : Option Commit :=
  match parseCommitChars s.data with
  | some (c, []) => some c
  | _ => none

/-! ## Log -/

/-- One row printed by `log`: the commit record with the `files` key
filtered out, leaving `timeStamp`, `message` and `parent`. -/
structure LogView where
  timeStamp : String
  message : String
  parent : Option String
deriving DecidableEq

/-- The view `log` prints for one commit. -/
def logView (c : Commit) : LogView :=
  { timeStamp := c.timeStamp, message := c.message, parent := c.parent }

/-- The `while (currentCommitHash)` loop of `log`: stops when the current
hash is falsy (`null` or the empty string), otherwise reads and parses the
commit object and continues at its parent.  `none` models the run throwing
(unreadable or unparseable commit object) or the fuel running out while the
loop would continue; the fuel only bounds the number of iterations. -/
def logLoop (objects : List (String × String)) :
    Option String → Nat → Option (List LogView)
  | none, _ => some []
  | some h, 0 => if h = "" then some [] else none
  | some h, fuel + 1 =>
    if h = "" then some []
    else
      match storeGet objects h with
      | none => none
      | some str =>
        match parseCommit str with
        | none => none
        | some c =>
          (logLoop objects c.parent fuel).map (fun l => logView c :: l)

/-- `log()`: walks the chain from `HEAD`; reads only, never writes, so the
state component of the result is the input state. -/
def ritLog (s : RepoState) (fuel : Nat) :
    Option (List LogView) × RepoState :=
  (logLoop s.objects (getCurrentHead s) fuel, s)

/-- A well-formed finite head-to-root parent chain: the current hash is
empty (`""`, the root marker the loop stops at) or absent (`null`), or it
resolves in the object store to the serialization of a commit whose own
parent chain continues.  The list collects the commits newest first. -/
inductive CommitChain (objects : List (String × String)) :
    Option String → List Commit → Prop where
  | nullRoot : CommitChain objects none []
  | emptyRoot : CommitChain objects (some "") []
  | step {h : String} {c : Commit} {cs : List Commit} :
      h ≠ "" →
      storeGet objects h = some (serializeCommit c) →
      CommitChain objects c.parent cs →
      CommitChain objects (some h) (c :: cs)

/-! ## Diff engine

Modelled from the spec: `diffLines` comes from the external `diff`
library; the spec describes it as a longest-common-subsequence-based line
diff over whole lines (trailing terminators included) producing an ordered
sequence of segments tagged `equal`, `added` or `removed`. -/

/-- Segment tag of a diff segment. -/
inductive DKind where
  | equal
  | added
  | removed
deriving DecidableEq

/-- Splits text into lines, each line keeping its trailing newline; the
final line may lack one.  The accumulator holds the current line reversed. -/
def splitLinesAux : List Char → List Char → List (List Char)
  | acc, [] => if acc.isEmpty then [] else [acc.reverse]
  | acc, c :: r =>
    if c = '\n' then (acc.reverse ++ ['\n']) :: splitLinesAux [] r
    else splitLinesAux (c :: acc) r

/-- Line tokenization of a text. -/
def linesOf (s : String) : List String :=
  (splitLinesAux [] s.data).map String.mk

/-- Length of a longest common subsequence of two line lists. -/
def lcsLen : List String → List String → Nat
  | [], _ => 0
  | _ :: _, [] => 0
  | a :: as, b :: bs =>
    if a = b then lcsLen as bs + 1
    else max (lcsLen as (b :: bs)) (lcsLen (a :: as) bs)
termination_by as bs => as.length + bs.length

/-- LCS line diff: one tagged segment per line, old lines in order on the
`equal`/`removed` side, new lines in order on the `equal`/`added` side. -/
def diffCore : List String → List String → List (DKind × String)
  | [], [] => []
  | [], b :: bs => (DKind.added, b) :: diffCore [] bs
  | a :: as, [] => (DKind.removed, a) :: diffCore as []
  | a :: as, b :: bs =>
    if a = b then (DKind.equal, a) :: diffCore as bs
    else if lcsLen (a :: as) bs ≤ lcsLen as (b :: bs) then
      (DKind.removed, a) :: diffCore as (b :: bs)
    else (DKind.added, b) :: diffCore (a :: as) bs
termination_by as bs => as.length + bs.length

/-- `diffLines(oldStr, newStr)`: the tagged segment sequence. -/
def diffLines (oldStr newStr : String) : List (DKind × String) :=
  diffCore (linesOf oldStr) (linesOf newStr)

/-- Concatenation of a list of strings (the reconstruction of a text from
selected diff segments). -/
def joinStr (l : List String) : String :=
  String.mk ((l.map String.data).flatten)

/-! ## showCommitDiff -/

/-- Failure classes of a `show` run.  `notFound` is a read of a missing
object (for the target commit: `getCommitData` catches ENOENT, logs
`Failed to read commit data`, returns `undefined`, and `JSON.parse` of it
then throws, aborting the run).  `corruptObject` is stored bytes that do
not parse as a commit record.  `typeErr` is `diffLines` called with
`undefined` as the old text, which throws a TypeError. -/
inductive RitError where
  | notFound
  | corruptObject
  | typeErr
deriving DecidableEq

/-- What `showCommitDiff` prints for one file entry of the target commit. -/
inductive FileReport where
  /-- The commit's `parent` is falsy (`null` or `""`): only the path and
  content are printed, no parent lookup and no diff. -/
  | noParent (path content : String)
  /-- The `else` branch: printed only when the looked-up parent content is
  the literal string `"undefined"`. -/
  | firstCommit (path content : String)
  /-- A diff was computed between the parent's blob and this blob. -/
  | diffed (path : String) (segments : List (DKind × String))
deriving DecidableEq

/-- `getCommitData(commitHash)`: reads `objects/<commitHash>`; the `catch`
branch returns `undefined` (`none`) when the read fails. -/
def getCommitData (objects : List (String × String)) (commitHash : String) :
    Option String :=
  storeGet objects commitHash

/-- `getParentFileContent(parentCommitData, filePath)`: `Array.find` of the
first parent entry with the same path, then the blob under its hash;
`none` when no entry matches (JS `undefined`).  The inner `Except` is the
blob read throwing. -/
def getParentFileContent (objects : List (String × String))
    (parentCommitData : Commit) (filePath : String) :
    Option (Option String) :=
  match parentCommitData.files.find? (fun f => f.path = filePath) with
  | none => none
  | some parentFile => some (getFileContent objects parentFile.hash)

/-- The body of `showCommitDiff`'s `for` loop for one file entry, faithful
to the source: the guard is `getParentFileContent !== "undefined"` — a
comparison against the *string* `"undefined"` — so a missing parent entry
(JS `undefined`) passes the guard and `diffLines(undefined, new)` throws a
TypeError, while the `First Commit` branch runs only when the parent blob's
content is the literal text `undefined`. -/
def processFile (objects : List (String × String)) (commitData : Commit)
    (file : IndexEntry) : Except RitError FileReport :=
  match getFileContent objects file.hash with
  | none => Except.error RitError.notFound
  | some fileContent =>
    match commitData.parent with
    | none => Except.ok (FileReport.noParent file.path fileContent)
    | some ph =>
      if ph = "" then Except.ok (FileReport.noParent file.path fileContent)
      else
        match getCommitData objects ph with
        | none => Except.error RitError.notFound
        | some pstr =>
          match parseCommit pstr with
          | none => Except.error RitError.corruptObject
          | some parentCommitData =>
            match getParentFileContent objects parentCommitData file.path with
            | none => Except.error RitError.typeErr
            | some none => Except.error RitError.notFound
            | some (some parentContent) =>
              if parentContent = "undefined" then
                Except.ok (FileReport.firstCommit file.path fileContent)
              else
                Except.ok
                  (FileReport.diffed file.path
                    (diffLines parentContent fileContent))

/-- The `for (const file of commitData.files)` loop: the first throw aborts
the whole run. -/
def processFiles (objects : List (String × String)) (commitData : Commit) :
    List IndexEntry → Except RitError (List FileReport)
  | [] => Except.ok []
  | f :: fs =>
    match processFile objects commitData f with
    | Except.error e => Except.error e
    | Except.ok r =>
      match processFiles objects commitData fs with
      | Except.error e => Except.error e
      | Except.ok rs => Except.ok (r :: rs)

/-- `showCommitDiff(commitHash)`: loads and parses the target commit, then
processes each of its file entries in order.  Reads only, never writes, so
the state component of the result is the input state. -/
def showCommitDiff (s : RepoState) (commitHash : String) :
    Except RitError (List FileReport) × RepoState :=
  (match getCommitData s.objects commitHash with
   | none => Except.error RitError.notFound
   | some str =>
     match parseCommit str with
     | none => Except.error RitError.corruptObject
     | some commitData => processFiles s.objects commitData commitData.files,
   s)

/-! ## Round-trip of the commit serialization -/

theorem parseLit_append (pre r : List Char) : parseLit pre (pre ++ r) = some r := by
  induction pre with
  | nil => rfl
  | cons c cs ih => simp [parseLit, ih]


theorem hexVal_hexDig {n : Nat} (h : n < 16) : hexVal (hexDig n) = some n := by
  interval_cases n <;> decide

theorem escStr_cons (c : Char) (s : List Char) : escStr (c :: s) = escChar c ++ escStr s := by
  simp [escStr]

theorem parseStrBody_esc (s : List Char) (r : List Char) :
    parseStrBody (escStr s ++ '"' :: r) = some (s, r) := by
  induction s with
  | nil =>
    show parseStrBody ('"' :: r) = some ([], r)
    unfold parseStrBody
    simp
  | cons c cs ih =>
    rw [escStr_cons, List.append_assoc]
    by_cases h1 : c = '"'
    · subst h1
      show parseStrBody ('\\' :: '"' :: (escStr cs ++ '"' :: r)) = _
      unfold parseStrBody
      simp [ih, escChar]
    · by_cases h2 : c = '\\'
      · subst h2
        show parseStrBody ('\\' :: '\\' :: (escStr cs ++ '"' :: r)) = _
        unfold parseStrBody
        simp [ih, escChar]
      · by_cases h3 : c = Char.ofNat 8
        · subst h3
          show parseStrBody ('\\' :: 'b' :: (escStr cs ++ '"' :: r)) = _
          unfold parseStrBody
          simp [ih, escChar]
        · by_cases h4 : c = Char.ofNat 9
          · subst h4
            show parseStrBody ('\\' :: 't' :: (escStr cs ++ '"' :: r)) = _
            unfold parseStrBody
            simp [ih, escChar]
          · by_cases h5 : c = Char.ofNat 10
            · subst h5
              show parseStrBody ('\\' :: 'n' :: (escStr cs ++ '"' :: r)) = _
              unfold parseStrBody
              simp [ih, escChar]
            · by_cases h6 : c = Char.ofNat 12
              · subst h6
                show parseStrBody ('\\' :: 'f' :: (escStr cs ++ '"' :: r)) = _
                unfold parseStrBody
                simp [ih, escChar]
              · by_cases h7 : c = Char.ofNat 13
                · subst h7
                  show parseStrBody ('\\' :: 'r' :: (escStr cs ++ '"' :: r)) = _
                  unfold parseStrBody
                  simp [ih, escChar]
                · by_cases h8 : c.toNat < 32
                  · rw [show escChar c =
                        ['\\', 'u', '0', '0', hexDig (c.toNat / 16),
                         hexDig (c.toNat % 16)] by
                      simp [escChar, h1, h2, h3, h4, h5, h6, h7, h8]]
                    have hdiv : c.toNat / 16 < 16 := by omega
                    have hmod : c.toNat % 16 < 16 := by omega
                    unfold parseStrBody
                    simp [hexVal_hexDig hdiv, hexVal_hexDig hmod, ih]
                    rw [show hexVal '0' = some 0 from rfl]
                    show some (Char.ofNat (4096 * 0 + 256 * 0 +
                      16 * (c.toNat / 16) + c.toNat % 16) :: cs, r) =
                      some (c :: cs, r)
                    have he : 4096 * 0 + 256 * 0 + 16 * (c.toNat / 16) +
                        c.toNat % 16 = c.toNat := by omega
                    rw [he, Char.ofNat_toNat]
                  · rw [show escChar c = [c] by
                      simp [escChar, h1, h2, h3, h4, h5, h6, h7, h8]]
                    show parseStrBody (c :: (escStr cs ++ '"' :: r)) = _
                    unfold parseStrBody
                    simp [h1, h2, ih]

theorem parseJString_quoted (s : List Char) (r : List Char) :
    parseJString (quoted s ++ r) = some (s, r) := by
  have hshape : quoted s ++ r = '"' :: (escStr s ++ '"' :: r) := by
    simp [quoted]
  rw [hshape]
  unfold parseJString
  simp [parseStrBody_esc]

theorem parseEntry_ser (e : IndexEntry) (r : List Char) :
    parseEntry (serEntry e ++ r) = some (e, r) := by
  unfold serEntry parseEntry
  simp [List.append_assoc, parseLit_append, parseJString_quoted]

theorem serEntries_head (e : IndexEntry) (es : List IndexEntry) :
    ∃ t, serEntries (e :: es) = '\x7b' :: t := by
  cases es with
  | nil => exact ⟨_, rfl⟩
  | cons e2 es2 => exact ⟨_, rfl⟩

theorem le_length_serEntries (es : List IndexEntry) (r : List Char) :
    es.length ≤ (serEntries es ++ r).length := by
  induction es generalizing r with
  | nil => simp
  | cons e es2 ih =>
    obtain ⟨t, ht⟩ := serEntries_head e es2
    cases es2 with
    | nil => simp [ht]
    | cons e2 es3 =>
      have hsh : serEntries (e :: e2 :: es3) ++ r =
          serEntry e ++ (',' :: (serEntries (e2 :: es3) ++ r)) := by
        show (serEntry e ++ ',' :: serEntries (e2 :: es3)) ++ r = _
        simp [List.append_assoc]
      have h1 : 0 < (serEntry e).length := by
        unfold serEntry pathKey
        simp
      have h2 := ih r
      rw [hsh]
      simp only [List.length_append, List.length_cons] at h2 ⊢
      omega

theorem parseEntriesAux_ser (es : List IndexEntry) (hne : es ≠ [])
    (fuel : Nat) (hfuel : es.length ≤ fuel) (r : List Char) :
    parseEntriesAux fuel (serEntries es ++ ']' :: r) = some (es, r) := by
  induction es generalizing fuel r with
  | nil => exact absurd rfl hne
  | cons e es2 ih =>
    cases fuel with
    | zero => simp at hfuel
    | succ fuel =>
      cases es2 with
      | nil =>
        show parseEntriesAux (fuel + 1) (serEntry e ++ ']' :: r) =
          some ([e], r)
        unfold parseEntriesAux
        simp [parseEntry_ser]
      | cons e2 es3 =>
        have hsh : serEntries (e :: e2 :: es3) ++ ']' :: r =
            serEntry e ++ (',' :: (serEntries (e2 :: es3) ++ ']' :: r)) := by
          show (serEntry e ++ ',' :: serEntries (e2 :: es3)) ++ ']' :: r = _
          simp [List.append_assoc]
        rw [hsh]
        unfold parseEntriesAux
        simp only [parseEntry_ser]
        have hfu : (e2 :: es3).length ≤ fuel := by
          simp only [List.length_cons] at hfuel ⊢
          omega
        simp [ih (by simp) fuel hfu]

theorem parseFiles_ser (es : List IndexEntry) (r : List Char) :
    parseFiles (serFiles es ++ r) = some (es, r) := by
  cases es with
  | nil =>
    show parseFiles ('[' :: ']' :: r) = some ([], r)
    unfold parseFiles
    simp
  | cons e es2 =>
    obtain ⟨t, ht⟩ := serEntries_head e es2
    have hsh : serFiles (e :: es2) ++ r =
        '[' :: (serEntries (e :: es2) ++ ']' :: r) := by
      unfold serFiles
      simp [List.append_assoc]
    rw [hsh, ht]
    unfold parseFiles
    simp only [List.cons_append]
    rw [if_pos trivial, if_neg (by decide)]
    have hfold : '\x7b' :: (t ++ ']' :: r) = serEntries (e :: es2) ++ ']' :: r := by
      rw [ht]
      rfl
    rw [hfold]
    exact parseEntriesAux_ser _ (by simp) _ (le_length_serEntries _ _) _

theorem parseParent_ser (p : Option String) (r : List Char) :
    parseParent (serParent p ++ r) = some (p, r) := by
  cases p with
  | none =>
    show parseParent ('n' :: 'u' :: 'l' :: 'l' :: r) = some (none, r)
    unfold parseParent
    simp
  | some s =>
    have hshape : serParent (some s) ++ r =
        '"' :: (escStr s.data ++ '"' :: r) := by
      simp [serParent, quoted]
    rw [hshape]
    unfold parseParent
    simp [parseStrBody_esc]

theorem parseCommitChars_ser (c : Commit) (r : List Char) :
    parseCommitChars (serCommitChars c ++ r) = some (c, r) := by
  unfold serCommitChars parseCommitChars
  simp [List.append_assoc, parseLit_append, parseJString_quoted,
    parseFiles_ser, parseParent_ser]

theorem parseCommit_serializeCommit (c : Commit) :
    parseCommit (serializeCommit c) = some c := by
  unfold parseCommit serializeCommit
  have h := parseCommitChars_ser c []
  rw [List.append_nil] at h
  simp [h]

theorem serializeCommit_injective : Function.Injective serializeCommit := by
  intro c1 c2 h
  have h1 := parseCommit_serializeCommit c1
  rw [h, parseCommit_serializeCommit c2] at h1
  exact (Option.some_inj.mp h1).symm

/-! ## Round-trip of the diff engine -/

theorem flatten_splitLinesAux (r acc : List Char) :
    (splitLinesAux acc r).flatten = acc.reverse ++ r := by
  induction r generalizing acc with
  | nil =>
    by_cases h : acc.isEmpty
    · simp [splitLinesAux, h, List.isEmpty_iff.mp h]
    · simp [splitLinesAux, h]
  | cons c r ih =>
    by_cases h : c = '\n'
    · subst h
      simp [splitLinesAux, ih]
    · simp [splitLinesAux, h, ih]

theorem joinStr_linesOf (s : String) : joinStr (linesOf s) = s := by
  have hmk : ∀ l : List Char, (String.mk l).data = l := fun _ => rfl
  unfold joinStr linesOf
  rw [List.map_map]
  have hcomp : (String.data ∘ String.mk) = id := by
    funext l
    exact hmk l
  rw [hcomp, List.map_id, flatten_splitLinesAux]
  rfl

theorem diffCore_old (as bs : List String) :
    (((diffCore as bs).filter (fun p => p.1 ≠ DKind.added)).map Prod.snd)
      = as := by
  induction as, bs using diffCore.induct with
  | case1 => simp [diffCore]
  | case2 b bs ih => simpa [diffCore] using ih
  | case3 a as ih => simpa [diffCore] using ih
  | case4 as b bs ih =>
    simpa [diffCore] using ih
  | case5 a as b bs hne hle ih =>
    simpa [diffCore, hne, hle] using ih
  | case6 a as b bs hne hle ih =>
    simpa [diffCore, hne, hle] using ih

theorem diffCore_new (as bs : List String) :
    (((diffCore as bs).filter (fun p => p.1 ≠ DKind.removed)).map Prod.snd)
      = bs := by
  induction as, bs using diffCore.induct with
  | case1 => simp [diffCore]
  | case2 b bs ih => simpa [diffCore] using ih
  | case3 a as ih => simpa [diffCore] using ih
  | case4 as b bs ih =>
    simpa [diffCore] using ih
  | case5 a as b bs hne hle ih =>
    simpa [diffCore, hne, hle] using ih
  | case6 a as b bs hne hle ih =>
    simpa [diffCore, hne, hle] using ih

/-! ## The log loop on a well-formed chain -/

theorem logLoop_chain (objects : List (String × String))
    (h : Option String) (cs : List Commit) (fuel : Nat)
    (hchain : CommitChain objects h cs) (hfuel : cs.length ≤ fuel) :
    logLoop objects h fuel = some (cs.map logView) := by
  induction hchain generalizing fuel with
  | nullRoot => simp [logLoop]
  | emptyRoot => cases fuel <;> simp [logLoop]
  | step hne hstore _ ih =>
    cases fuel with
    | zero => simp at hfuel
    | succ fuel =>
      unfold logLoop
      rw [if_neg hne, hstore]
      simp only [parseCommit_serializeCommit]
      rw [ih fuel (by simp only [List.length_cons] at hfuel; omega)]
      simp

/-! ## Claims -/

/-- Claim C1: for every pair of texts, the line diff computed by the diff
engine is an ordered sequence of segments tagged equal, added, or removed
such that concatenating the equal and removed segments in order reproduces
the old text exactly, and concatenating the equal and added segments in
order reproduces the new text exactly. -/
theorem diffLines_roundtrip (oldStr newStr : String) :
    joinStr (((diffLines oldStr newStr).filter
        (fun p => p.1 ≠ DKind.added)).map Prod.snd) = oldStr ∧
    joinStr (((diffLines oldStr newStr).filter
        (fun p => p.1 ≠ DKind.removed)).map Prod.snd) = newStr := by
  unfold diffLines
  rw [diffCore_old, diffCore_new]
  exact ⟨joinStr_linesOf _, joinStr_linesOf _⟩

/-- Claim C2 (code bug): when a file's path has no match in the parent
commit, `showCommitDiff` does not report "first commit" — the guard
`getParentFileContent !== "undefined"` compares against the string
`"undefined"`, so the JS `undefined` of a missing match passes the guard
and `diffLines(undefined, new)` throws a TypeError; the "First Commit"
branch runs only when the matched parent blob's content is the literal
text `undefined`.  Evaluated here on a concrete repository: the commit at
`c2h` holds `b.txt`, its parent holds only `a.txt`. -/
theorem processFile_missing_parent_path_throws :
    processFile
        [("p1", serializeCommit
            { timeStamp := "2024-01-01T00:00:00.000Z", message := "first",
              files := [{ path := "a.txt", hash := "ha" }],
              parent := some "" }),
         ("ha", "alpha\n"), ("hb", "beta\n")]
        { timeStamp := "2024-01-02T00:00:00.000Z", message := "second",
          files := [{ path := "b.txt", hash := "hb" }], parent := some "p1" }
        { path := "b.txt", hash := "hb" }
      = Except.error RitError.typeErr ∧
    processFile
        [("p1", serializeCommit
            { timeStamp := "2024-01-01T00:00:00.000Z", message := "first",
              files := [{ path := "a.txt", hash := "ha" }],
              parent := some "" }),
         ("ha", "undefined"), ("hb", "beta\n")]
        { timeStamp := "2024-01-02T00:00:00.000Z", message := "second",
          files := [{ path := "a.txt", hash := "hb" }], parent := some "p1" }
        { path := "a.txt", hash := "hb" }
      = Except.ok (FileReport.firstCommit "a.txt" "beta\n") := by
  constructor <;> rfl

/-- Claim C3: showing a hash that is not a key of the object store fails
with NotFound (the commit-data read throws, is logged, and the subsequent
parse of `undefined` aborts the run) and leaves the repository state
unchanged. -/
theorem showCommitDiff_absent_notFound (s : RepoState) (h : String)
    (habs : storeGet s.objects h = none) :
    showCommitDiff s h = (Except.error RitError.notFound, s) := by
  unfold showCommitDiff getCommitData
  rw [habs]

/-- Witness for C3 at a concrete state: the empty fresh repository has no
object `deadbeef`. -/
theorem showCommitDiff_absent_notFound_witness :
    storeGet initState.objects "deadbeef" = none ∧
    showCommitDiff initState "deadbeef"
      = (Except.error RitError.notFound, initState) :=
  ⟨rfl, showCommitDiff_absent_notFound initState "deadbeef" rfl⟩

/-- Claim C4: a successful commit builds
`{timeStamp, message, files = index snapshot, parent = current head}`,
hashes its serialization, stores the serialized record under that hash,
points the head at it, clears the index, and touches no other object. -/
theorem commit_effects (sha1 : String → String) (s : RepoState)
    (message timeStamp : String) :
    (commit sha1 s message timeStamp).2
        = hashObject sha1 (serializeCommit (mkCommit s message timeStamp)) ∧
    (mkCommit s message timeStamp).files = s.index ∧
    (mkCommit s message timeStamp).parent = getCurrentHead s ∧
    storeGet (commit sha1 s message timeStamp).1.objects
        (commit sha1 s message timeStamp).2
        = some (serializeCommit (mkCommit s message timeStamp)) ∧
    (commit sha1 s message timeStamp).1.headFile
        = some (commit sha1 s message timeStamp).2 ∧
    (commit sha1 s message timeStamp).1.index = [] ∧
    (∀ k, k ≠ (commit sha1 s message timeStamp).2 →
      storeGet (commit sha1 s message timeStamp).1.objects k
        = storeGet s.objects k) := by
  refine ⟨rfl, rfl, rfl, ?_, rfl, rfl, ?_⟩
  · simp [commit, storePut, storeGet]
  · intro k hk
    simp only [commit, storePut, storeGet]
    rw [if_neg (fun he => hk he.symm)]

/-- Witness for C4 at a concrete state: committing on the fresh repository
with a constant digest function; the untouched-keys conjunct is applied at
the key `x`. -/
theorem commit_effects_witness :
    (commit (fun _ => "H") initState "m" "t").1.index = [] ∧
    storeGet (commit (fun _ => "H") initState "m" "t").1.objects "x"
      = storeGet initState.objects "x" :=
  ⟨(commit_effects (fun _ => "H") initState "m" "t").2.2.2.2.2.1,
   (commit_effects (fun _ => "H") initState "m" "t").2.2.2.2.2.2 "x"
     (by decide)⟩

/-- Claim C5: storing content in the object store (the blob-write step of
`add`) and reading it back by the returned hash yields the content again,
both for the bare store write and through `add` itself. -/
theorem get_put_roundtrip (sha1 : String → String) (s : RepoState)
    (filePath content : String) :
    getFileContent
        (storePut s.objects (hashObject sha1 content) content)
        (hashObject sha1 content) = some content ∧
    getFileContent (add sha1 s filePath content).objects
        (hashObject sha1 content) = some content := by
  constructor <;>
    simp [getFileContent, storePut, storeGet, add, updateStagingArea,
      hashObject]

/-- Claim C6: the commit serialization is deterministic and injective —
identical `{timeStamp, message, files, parent}` tuples produce identical
bytes (hence identical hashes on any run), and under an injective digest,
tuples differing in any field yield different hashes. -/
theorem commit_hash_deterministic (sha1 : String → String)
    (c1 c2 : Commit) :
    (serializeCommit c1 = serializeCommit c2 ↔ c1 = c2) ∧
    (Function.Injective sha1 →
      (hashObject sha1 (serializeCommit c1)
          = hashObject sha1 (serializeCommit c2) ↔ c1 = c2)) := by
  constructor
  · exact ⟨fun h => serializeCommit_injective h, fun h => by rw [h]⟩
  · intro hinj
    exact ⟨fun h => serializeCommit_injective (hinj h), fun h => by rw [h]⟩

/-- Witness for C6 at concrete commits: with the identity digest (which is
injective), two tuples differing only in the timestamp hash differently. -/
theorem commit_hash_deterministic_witness :
    hashObject id (serializeCommit
        { timeStamp := "t", message := "m", files := [], parent := none })
      ≠ hashObject id (serializeCommit
        { timeStamp := "u", message := "m", files := [], parent := none }) := by
  intro he
  have h := ((commit_hash_deterministic id
      { timeStamp := "t", message := "m", files := [], parent := none }
      { timeStamp := "u", message := "m", files := [], parent := none }).2
    (fun _ _ hab => hab)).mp he
  exact absurd h (by decide)

/-- Claim C7 counterexample: in a freshly initialized repository the very
first commit's parent is the empty string, not `null` — the claim's
`parent:null` is refuted at this concrete input. -/
theorem firstCommit_parent_not_null :
    (mkCommit initState "first" "2024-01-01T00:00:00.000Z").parent
        = some "" ∧
    (some "" : Option String) ≠ none :=
  ⟨rfl, by decide⟩

/-- Claim C7 (amended): committing with an empty staging index yields a
commit whose `files` is empty and whose parent is the prior head; the very
first commit of a repository carries the empty string as parent (the
initial HEAD content), which the traversals treat as "no parent". -/
theorem emptyIndex_commit (s : RepoState) (message timeStamp : String)
    (hidx : s.index = []) :
    (mkCommit s message timeStamp).files = [] ∧
    (mkCommit s message timeStamp).parent = getCurrentHead s ∧
    (mkCommit initState message timeStamp).parent = some "" := by
  refine ⟨?_, rfl, rfl⟩
  simp [mkCommit, hidx]

/-- Witness for C7 (amended) at the fresh repository, whose index is
empty. -/
theorem emptyIndex_commit_witness :
    (mkCommit initState "first" "T").files = [] ∧
    (mkCommit initState "first" "T").parent = getCurrentHead initState :=
  ⟨(emptyIndex_commit initState "first" "T" rfl).1,
   (emptyIndex_commit initState "first" "T" rfl).2.1⟩

/-- Claim C8: `add`'s staging update appends the new entry at the end
unconditionally — every prior entry (same-path entries included) is kept
at its position, and the new entry lands at the old length; nothing is
merged, replaced, or deduplicated. -/
theorem updateStagingArea_appends (s : RepoState)
    (filePath fileHash : String) :
    (updateStagingArea s filePath fileHash).index
        = s.index ++ [{ path := filePath, hash := fileHash }] ∧
    (∀ i, i < s.index.length →
      (updateStagingArea s filePath fileHash).index[i]? = s.index[i]?) ∧
    (updateStagingArea s filePath fileHash).index[s.index.length]?
        = some { path := filePath, hash := fileHash } ∧
    (updateStagingArea s filePath fileHash).index.length
        = s.index.length + 1 := by
  refine ⟨rfl, ?_, ?_, by simp [updateStagingArea]⟩
  · intro i hi
    simp [updateStagingArea, List.getElem?_append_left hi]
  · simp [updateStagingArea]

/-- Witness for C8 at a concrete state with a prior entry for the same
path: the old entry is untouched and the new one is appended. -/
theorem updateStagingArea_appends_witness :
    (updateStagingArea
        { objects := [], headFile := some "",
          index := [{ path := "a.txt", hash := "h1" }] }
        "a.txt" "h2").index[0]?
      = some { path := "a.txt", hash := "h1" } :=
  (updateStagingArea_appends
      { objects := [], headFile := some "",
        index := [{ path := "a.txt", hash := "h1" }] }
      "a.txt" "h2").2.1 0 (by decide)

/-- Claim C9: on a repository whose head-to-root parent chain is finite and
well formed, `log` yields the commits newest first, one metadata view
(`timeStamp`, `message`, `parent` — files omitted) per commit, following
parent links until the parent is empty; it terminates within `fuel ≥ chain
length` iterations and does not modify the repository state. -/
theorem log_yields_chain (s : RepoState) (cs : List Commit) (fuel : Nat)
    (hchain : CommitChain s.objects (getCurrentHead s) cs)
    (hfuel : cs.length ≤ fuel) :
    ritLog s fuel = (some (cs.map logView), s) := by
  unfold ritLog
  rw [logLoop_chain s.objects (getCurrentHead s) cs fuel hchain hfuel]

/-- Witness for C9 on a concrete one-commit repository. -/
theorem log_yields_chain_witness :
    ritLog
        { objects := [("abc", serializeCommit
            { timeStamp := "t0", message := "m0", files := [],
              parent := some "" })],
          headFile := some "abc", index := [] } 1
      = (some [{ timeStamp := "t0", message := "m0",
                 parent := some "" }],
         { objects := [("abc", serializeCommit
             { timeStamp := "t0", message := "m0", files := [],
               parent := some "" })],
           headFile := some "abc", index := [] }) :=
  log_yields_chain _
    [{ timeStamp := "t0", message := "m0", files := [], parent := some "" }]
    1
    (CommitChain.step (by decide) (by decide) CommitChain.emptyRoot)
    (by decide)

/-- Claim C10: a freshly initialized repository has an empty-string HEAD,
so the first commit records parent `""` (not `null`); both traversals
treat an empty-string parent exactly like an absent one — the log walk
stops and `showCommitDiff` neither looks up a parent nor diffs. -/
theorem emptyString_parent_is_root (objects : List (String × String))
    (ts msg : String) (files : List IndexEntry) (f : IndexEntry)
    (message timeStamp : String) (fuel : Nat) :
    initState.headFile = some "" ∧
    (mkCommit initState message timeStamp).parent = some "" ∧
    (mkCommit initState message timeStamp).parent ≠ none ∧
    processFile objects
        { timeStamp := ts, message := msg, files := files, parent := some "" }
        f
      = processFile objects
          { timeStamp := ts, message := msg, files := files, parent := none }
          f ∧
    logLoop objects (some "") fuel = some [] ∧
    logLoop objects none fuel = some [] ∧
    (∀ content, storeGet objects f.hash = some content →
      processFile objects
          { timeStamp := ts, message := msg, files := files,
            parent := some "" } f
        = Except.ok (FileReport.noParent f.path content)) := by
  refine ⟨rfl, rfl, Option.some_ne_none "", ?_,
    by cases fuel <;> simp [logLoop], by simp [logLoop], ?_⟩
  · cases hs : storeGet objects f.hash <;>
      simp [processFile, getFileContent, hs]
  · intro content hs
    simp [processFile, getFileContent, hs]

/-- Witness for C10's per-file conjunct at a concrete store. -/
theorem emptyString_parent_is_root_witness :
    processFile [("hb", "x")]
        { timeStamp := "t", message := "m", files := [], parent := some "" }
        { path := "a", hash := "hb" }
      = Except.ok (FileReport.noParent "a" "x") :=
  (emptyString_parent_is_root [("hb", "x")] "t" "m" []
      { path := "a", hash := "hb" } "m" "t" 0).2.2.2.2.2.2 "x" rfl

end Rit
